import Mathlib

/-!
Verification of the MIDI-to-image rendering core (`main.py`).

The Python source is shallowly embedded below: timestamps and pixel
coordinates (Python floats holding exact small decimals) are modelled as
rationals, Python integers as `ℤ`/`ℕ`, and the truncating `int(...)`
conversion as `pyInt`.  Each definition mirrors one function or code block
of the source; renderers are modelled at the level of the draw commands
they issue to the image library.
-/

/-- Python `int(x)` on a float: truncation toward zero. -/
def pyInt (q : ℚ) : ℤ := if q < 0 then -(Int.floor (-q)) else Int.floor q

/-- An RGB triple as produced by the color mapper (Python int components). -/
abbrev RGB := ℤ × ℤ × ℤ

/-- An RGBA quadruple (used by the vignette overlay). -/
abbrev RGBA := ℤ × ℤ × ℤ × ℤ

/-- Kind of a decoded note event (`'start'` / `'end'` tags in the source). -/
inductive EKind where
  | start : EKind
  | end_ : EKind
deriving DecidableEq, Repr, BEq

/-- One entry of the `events` list built in `midi_to_artistic`:
`(current_time, msg.note, velocity, kind)`. -/
structure Event where
  time : ℚ
  pitch : ℕ
  vel : ℕ
  kind : EKind
deriving DecidableEq, Repr

/-- Message types the decoder loop distinguishes. -/
inductive MsgType where
  | note_on : MsgType
  | note_off : MsgType
  | other : MsgType
deriving DecidableEq, Repr

/-- A MIDI message as seen by the decoding loop (`for msg in mid`):
`msg.time` is the delta time in seconds. -/
structure Msg where
  is_meta : Bool
  type : MsgType
  note : ℕ
  velocity : ℕ
  time : ℚ
deriving DecidableEq, Repr

/-- One iteration of the message-decoding loop in `midi_to_artistic`
(lines 31-37): accumulate `current_time` and append start/end events. -/
def decodeStep (acc : ℚ × List Event) (msg : Msg) : ℚ × List Event :=
  if msg.is_meta then acc
  else
    let t := acc.1 + msg.time
    if msg.type = MsgType.note_on ∧ 0 < msg.velocity then
      (t, acc.2 ++ [⟨t, msg.note, msg.velocity, EKind.start⟩])
    else if msg.type = MsgType.note_off ∨ (msg.type = MsgType.note_on ∧ msg.velocity = 0) then
      (t, acc.2 ++ [⟨t, msg.note, 0, EKind.end_⟩])
    else (t, acc.2)

/-- The full `events` list produced from the message stream. -/
def decodeEvents (msgs : List Msg) : List Event :=
  (msgs.foldl decodeStep (0, [])).2

/-- A reconstructed note: the tuple `(note, start_time, duration, vel)`
appended to `music_notes`. -/
structure NoteInterval where
  pitch : ℕ
  start : ℚ
  duration : ℚ
  vel : ℕ
deriving DecidableEq, Repr

/-- State of the interval-building loop: `active_notes` (a dict from pitch
to `(pendingStart, pendingVelocity)`) and the `music_notes` built so far. -/
structure BState where
  pending : ℕ → Option (ℚ × ℕ)
  out : List NoteInterval

/-- One iteration of the duration-computing loop in `midi_to_artistic`
(lines 41-48). -/
def stepNote (st : BState) (e : Event) : BState :=
  match e.kind with
  | EKind.start =>
      ⟨fun p => if p = e.pitch then some (e.time, e.vel) else st.pending p, st.out⟩
  | EKind.end_ =>
      match st.pending e.pitch with
      | none => st
      | some (start_time, vel) =>
          let pending2 := fun p => if p = e.pitch then none else st.pending p
          let duration := e.time - start_time
          if 0 < duration then ⟨pending2, st.out ++ [⟨e.pitch, start_time, duration, vel⟩]⟩
          else ⟨pending2, st.out⟩

/-- Initial loop state: empty dict, empty `music_notes`. -/
def initState : BState := ⟨fun _ => none, []⟩

/-- State after folding the whole event list. -/
def buildState (events : List Event) : BState :=
  events.foldl stepNote initState

/-- The `music_notes` list produced from the event list. -/
def buildNotes (events : List Event) : List NoteInterval :=
  (buildState events).out

/-- `max(n[1] + n[2] for n in music_notes)` before the `or 1` fallback
(only ever evaluated on a non-empty list in the source). -/
def rawTotal : List NoteInterval → ℚ
  | [] => 0
  | n :: rest => (rest.map (fun m => m.start + m.duration)).foldl max (n.start + n.duration)

/-- `total_duration = max(n[1] + n[2] for n in music_notes) or 1`:
Python `x or 1` replaces a zero (falsy) value by `1`. -/
def total_duration (notes : List NoteInterval) : ℚ :=
  if rawTotal notes = 0 then 1 else rawTotal notes

/-- `min_note = min(n[0] for n in music_notes)`. -/
def min_note : List NoteInterval → ℕ
  | [] => 0
  | n :: rest => rest.foldl (fun m x => min m x.pitch) n.pitch

/-- `max_note = max(n[0] for n in music_notes)`. -/
def max_note : List NoteInterval → ℕ
  | [] => 0
  | n :: rest => rest.foldl (fun m x => max m x.pitch) n.pitch

/-- `note_range = max(max_note - min_note, 1)`. -/
def note_range (notes : List NoteInterval) : ℕ :=
  max (max_note notes - min_note notes) 1

/-- `colorsys.hsv_to_rgb` from the Python standard library (exact
rational transcription; the truncating `int()` is applied to `h*6.0`). -/
def hsv_to_rgb (h s v : ℚ) : ℚ × ℚ × ℚ :=
  if s = 0 then (v, v, v)
  else
    let i0 : ℤ := pyInt (h * 6)
    let f : ℚ := h * 6 - (i0 : ℚ)
    let p := v * (1 - s)
    let q := v * (1 - s * f)
    let t := v * (1 - s * (1 - f))
    let i := i0 % 6
    if i = 0 then (v, t, p)
    else if i = 1 then (q, v, p)
    else if i = 2 then (p, v, t)
    else if i = 3 then (p, q, v)
    else if i = 4 then (t, p, v)
    else (v, p, q)

/-- The `note_names` list inside `get_color`. -/
def note_names : List String :=
  ["C", "C#", "D", "D#", "E", "F"] ++ ["F#", "G", "G#", "A", "A#", "B"]

/-- `base_note = note_names[note % 12][0]` (first character of the name). -/
def base_note (note : ℕ) : Char :=
  ((note_names.getD (note % 12) "C").toList.headD 'C')

/-- The `palettes` dict of the `'ocean'` branch, with its
`.get(base_note, (200, 200, 200))` default. -/
def ocean_palettes (c : Char) : RGB :=
  if c = 'C' then (20, 60, 130) else if c = 'D' then (40, 120, 180)
  else if c = 'E' then (70, 170, 210) else if c = 'F' then (100, 190, 200)
  else if c = 'G' then (120, 200, 190) else if c = 'A' then (150, 210, 170)
  else if c = 'B' then (180, 220, 150) else (200, 200, 200)

/-- The `palettes` dict of the `'forest'` branch, with its default. -/
def forest_palettes (c : Char) : RGB :=
  if c = 'C' then (30, 70, 40) else if c = 'D' then (50, 100, 60)
  else if c = 'E' then (80, 130, 80) else if c = 'F' then (120, 160, 90)
  else if c = 'G' then (160, 190, 100) else if c = 'A' then (190, 210, 110)
  else if c = 'B' then (210, 220, 120) else (200, 200, 200)

/-- The `palettes` dict of the `'sunset'` branch, with its
`.get(base_note, (255, 255, 200))` default. -/
def sunset_palettes (c : Char) : RGB :=
  if c = 'C' then (180, 50, 70) else if c = 'D' then (200, 80, 60)
  else if c = 'E' then (220, 110, 70) else if c = 'F' then (230, 140, 80)
  else if c = 'G' then (240, 170, 90) else if c = 'A' then (250, 200, 120)
  else if c = 'B' then (255, 230, 150) else (255, 255, 200)

/-- `tuple(int(c*255) for c in rgb)` applied to an `hsv_to_rgb` result. -/
def rgbScale255 (c : ℚ × ℚ × ℚ) : RGB :=
  (pyInt (c.1 * 255), pyInt (c.2.1 * 255), pyInt (c.2.2 * 255))

/-- `tuple(int(c * intensity) for c in base_color)`. -/
def scaleRGB (c : RGB) (k : ℚ) : RGB :=
  (pyInt ((c.1 : ℚ) * k), pyInt ((c.2.1 : ℚ) * k), pyInt ((c.2.2 : ℚ) * k))

/-- `tuple(min(255, int(c * intensity)) for c in base_color)` (sunset). -/
def scaleClampRGB (c : RGB) (k : ℚ) : RGB :=
  (min 255 (pyInt ((c.1 : ℚ) * k)), min 255 (pyInt ((c.2.1 : ℚ) * k)),
   min 255 (pyInt ((c.2.2 : ℚ) * k)))

/-- The nested `get_color(note, velocity)` of `midi_to_artistic`
(lines 60-121); the captured `palette` string is an explicit argument.
The let-bound `velRat` is `vel_ratio = velocity / 127` in the source. -/
def get_color (palette : String) (note velocity : ℕ) : RGB :=
  let velRat : ℚ := (velocity : ℚ) / 127
  if palette = "hsv" then
    let hue : ℚ := ((note % 12 : ℕ) : ℚ) / 12
    let saturation : ℚ := 7/10 + velRat * (3/10)
    let value : ℚ := 6/10 + velRat * (4/10)
    rgbScale255 (hsv_to_rgb hue saturation value)
  else if palette = "ocean" then
    let base_color := ocean_palettes (base_note note)
    let intensity : ℚ := 1/2 + velRat * (1/2)
    scaleRGB base_color intensity
  else if palette = "forest" then
    let base_color := forest_palettes (base_note note)
    let intensity : ℚ := 6/10 + velRat * (4/10)
    scaleRGB base_color intensity
  else if palette = "sunset" then
    let base_color := sunset_palettes (base_note note)
    let intensity : ℚ := 1/2 + velRat * (1/2)
    scaleClampRGB base_color intensity
  else if palette = "pastel" then
    let hue : ℚ := ((note % 12 : ℕ) : ℚ) / 12
    rgbScale255 (hsv_to_rgb hue (3/10) (9/10))
  else if palette = "grayscale" then
    let intensity : ℚ := 50 + velRat * 205
    (pyInt intensity, pyInt intensity, pyInt intensity)
  else if palette = "fire" then
    let heat : ℚ := velRat * (7/10) + 3/10
    if heat < 1/2 then (pyInt (255 * heat * 2), pyInt (100 * heat * 2), 0)
    else (255, pyInt (100 + 155 * (heat - 1/2) * 2), pyInt (100 * (heat - 1/2) * 2))
  else if palette = "ice" then
    let coldness : ℚ := velRat * (7/10) + 3/10
    (pyInt (200 * coldness), pyInt (230 * coldness), pyInt (255 * coldness))
  else (200, 200, 200)

/-- `int((t / total_duration) * width)`, the horizontal mapping every
renderer applies to a timestamp. -/
def timeToX (total : ℚ) (width : ℕ) (t : ℚ) : ℤ :=
  pyInt ((t / total) * (width : ℚ))

/-- `y = height - 50 - ((note - min_note) / note_range) * (height - 100)`
in `create_watercolor_style` (line 154). -/
def watercolorY (height : ℚ) (mn rg note : ℕ) : ℚ :=
  height - 50 - ((note : ℚ) - (mn : ℚ)) / (rg : ℚ) * (height - 100)

/-- `y = height - ((note - min_note) / note_range) * (height - 50)`
in `create_neon_style` (line 173). -/
def neonY (height : ℚ) (mn rg note : ℕ) : ℚ :=
  height - ((note : ℚ) - (mn : ℚ)) / (rg : ℚ) * (height - 50)

/-- The same vertical mapping in `create_particle_style` (line 193). -/
def particleY (height : ℚ) (mn rg note : ℕ) : ℚ :=
  height - ((note : ℚ) - (mn : ℚ)) / (rg : ℚ) * (height - 50)

/-- The same vertical mapping in `create_geometric_style` (line 213). -/
def geometricY (height : ℚ) (mn rg note : ℕ) : ℚ :=
  height - ((note : ℚ) - (mn : ℚ)) / (rg : ℚ) * (height - 50)

/-- `y1 = height - ((note - min_note) / note_range) * (height - 50)`
in `create_classic_style` (line 234). -/
def classicY (height : ℚ) (mn rg note : ℕ) : ℚ :=
  height - ((note : ℚ) - (mn : ℚ)) / (rg : ℚ) * (height - 50)

/-- Modelled from the spec: the Scene Normalizer coordinate function
`pitchToY(p) = height − ((p − minPitch) / pitchRange) * (height − verticalMargin)`
stated in section 4.2, with the style-specific `verticalMargin` explicit. -/
def pitchToY_spec (height margin : ℚ) (mn rg note : ℕ) : ℚ :=
  height - ((note : ℚ) - (mn : ℚ)) / (rg : ℚ) * (height - margin)

/-- A fill/outline color handed to the drawing library: either an RGB
triple or an RGBA tuple `(*color, alpha)`. -/
inductive Paint where
  | rgb : RGB → Paint
  | rgba : RGB → ℤ → Paint
deriving DecidableEq, Repr

/-- A drawing-library call issued by a renderer, with the exact
coordinates the source passes (floats, modelled as rationals). -/
inductive DrawCmd where
  | line (x1 y1 x2 y2 : ℚ) (fill : Paint) (width : ℕ) : DrawCmd
  | rect (x1 y1 x2 y2 : ℚ) (fill : Paint) : DrawCmd
  | ellipse (x1 y1 x2 y2 : ℚ) (fill : Paint) (outline : Option Paint) : DrawCmd
  | polygon (pts : List (ℚ × ℚ)) (fill : Paint) : DrawCmd
deriving DecidableEq, Repr

/-- Result of one style renderer: the background color of the fresh
image, the draw commands issued, and whether a smoothing filter is
applied afterwards (`SMOOTH_MORE` in watercolor). -/
structure RenderOut where
  bg : RGB
  cmds : List DrawCmd
  smoothed : Bool

/-- The rectangle `create_classic_style` draws for one note
(lines 231-238). -/
def classicNoteCmd (width height : ℕ) (gc : ℕ → ℕ → RGB) (total : ℚ)
    (mn rg : ℕ) (n : NoteInterval) : DrawCmd :=
  let x1 := timeToX total width n.start
  let x2 := timeToX total width (n.start + n.duration)
  let y1 := classicY (height : ℚ) mn rg n.pitch
  let y2 := y1 - 20
  DrawCmd.rect (x1 : ℚ) y1 (x2 : ℚ) y2 (Paint.rgb (gc n.pitch n.vel))

/-- `create_classic_style` (lines 226-240). -/
def create_classic_style (notes : List NoteInterval) (width height : ℕ)
    (gc : ℕ → ℕ → RGB) (total : ℚ) (mn rg : ℕ) : RenderOut :=
  ⟨(20, 20, 30), notes.map (classicNoteCmd width height gc total mn rg), false⟩

/-- Python `range(10, 0, -1)` in the neon glow loop. -/
def rangeTenDown : List ℕ := [10, 9, 8, 7, 6, 5, 4, 3, 2, 1]

/-- `alpha = min(255, int(30 * (1 - r/10) * 255))` for glow ring `r`. -/
def neonAlpha (r : ℕ) : ℤ :=
  min 255 (pyInt (30 * (1 - (r : ℚ) / 10) * 255))

/-- The draw calls `create_neon_style` issues for one note
(lines 170-182): ten glow lines then the 3px core line. -/
def neonNoteCmds (width height : ℕ) (gc : ℕ → ℕ → RGB) (total : ℚ)
    (mn rg : ℕ) (n : NoteInterval) : List DrawCmd :=
  let x1 := timeToX total width n.start
  let x2 := timeToX total width (n.start + n.duration)
  let y := neonY (height : ℚ) mn rg n.pitch
  let color := gc n.pitch n.vel
  (rangeTenDown.map fun r =>
    DrawCmd.line (x1 : ℚ) y (x2 : ℚ) y (Paint.rgba color (neonAlpha r)) (r * 2)) ++
  [DrawCmd.line (x1 : ℚ) y (x2 : ℚ) y (Paint.rgb color) 3]

/-- `create_neon_style` (lines 165-184). -/
def create_neon_style (notes : List NoteInterval) (width height : ℕ)
    (gc : ℕ → ℕ → RGB) (total : ℚ) (mn rg : ℕ) : RenderOut :=
  ⟨(0, 0, 0), notes.flatMap (neonNoteCmds width height gc total mn rg), false⟩

/-- The three jittered ellipses `create_watercolor_style` draws for one
note (lines 151-161); `rnd k lo hi` is the value of the `k`-th
`random.randint(lo, hi)` call of the render pass and `k0` the call
counter on entry.  The bound `radius` is computed but unused in the
source; the call still advances the generator. -/
def watercolorNoteCmds (rnd : ℕ → ℤ → ℤ → ℤ) (k0 : ℕ) (width height : ℕ)
    (gc : ℕ → ℕ → RGB) (total : ℚ) (mn rg : ℕ) (n : NoteInterval) : List DrawCmd :=
  let x1 := timeToX total width n.start
  let x2 := timeToX total width (n.start + n.duration)
  let y := watercolorY (height : ℚ) mn rg n.pitch
  let color := gc n.pitch n.vel
  (List.range 3).map fun i =>
    let offset := rnd (k0 + 2 * i) (-10) 10
    let _radius := rnd (k0 + 2 * i + 1) 5 15
    DrawCmd.ellipse ((x1 : ℚ) + offset) (y - 20 + offset) ((x2 : ℚ) + offset)
      (y + 20 + offset) (Paint.rgb color) (some (Paint.rgb color))

/-- `create_watercolor_style` (lines 146-163); each note consumes six
generator calls. -/
def create_watercolor_style (rnd : ℕ → ℤ → ℤ → ℤ) (notes : List NoteInterval)
    (width height : ℕ) (gc : ℕ → ℕ → RGB) (total : ℚ) (mn rg : ℕ) : RenderOut :=
  ⟨(240, 240, 235),
   (notes.enum).flatMap (fun jn =>
     watercolorNoteCmds rnd (6 * jn.1) width height gc total mn rg jn.2),
   true⟩

/-- `create_particle_style` (lines 186-203): per note,
`particle_count = int(vel / 10)` scattered circles; the accumulator
threads the generator call counter. -/
def create_particle_style (rnd : ℕ → ℤ → ℤ → ℤ) (notes : List NoteInterval)
    (width height : ℕ) (gc : ℕ → ℕ → RGB) (total : ℚ) (mn rg : ℕ) : RenderOut :=
  let cmds := (notes.foldl (fun (acc : ℕ × List DrawCmd) n =>
    let x := pyInt (((n.start + n.duration / 2) / total) * (width : ℚ))
    let y := particleY (height : ℚ) mn rg n.pitch
    let color := gc n.pitch n.vel
    let particle_count := n.vel / 10
    let pcmds := (List.range particle_count).map fun i =>
      let px := (x : ℚ) + (rnd (acc.1 + 3 * i) (-30) 30 : ℤ)
      let py := y + (rnd (acc.1 + 3 * i + 1) (-30) 30 : ℤ)
      let size := (rnd (acc.1 + 3 * i + 2) 1 5 : ℤ)
      DrawCmd.ellipse (px - size) (py - size) (px + size) (py + size)
        (Paint.rgb color) none
    (acc.1 + 3 * particle_count, acc.2 ++ pcmds)) (0, [])).2
  ⟨(10, 10, 20), cmds, false⟩

/-- The shape `create_geometric_style` draws for one note
(lines 210-222): dispatch on `note % 3`. -/
def geometricNoteCmd (width height : ℕ) (gc : ℕ → ℕ → RGB) (total : ℚ)
    (mn rg : ℕ) (n : NoteInterval) : DrawCmd :=
  let x1 := timeToX total width n.start
  let x2 := timeToX total width (n.start + n.duration)
  let y := geometricY (height : ℚ) mn rg n.pitch
  let color := gc n.pitch n.vel
  if n.pitch % 3 = 0 then
    DrawCmd.rect (x1 : ℚ) (y - 15) (x2 : ℚ) (y + 15) (Paint.rgb color)
  else if n.pitch % 3 = 1 then
    DrawCmd.polygon [((x1 : ℚ), y), ((x2 : ℚ), y - 20), ((x2 : ℚ), y + 20)] (Paint.rgb color)
  else
    DrawCmd.ellipse (x1 : ℚ) (y - 15) (x2 : ℚ) (y + 15) (Paint.rgb color) none

/-- `create_geometric_style` (lines 205-224). -/
def create_geometric_style (notes : List NoteInterval) (width height : ℕ)
    (gc : ℕ → ℕ → RGB) (total : ℚ) (mn rg : ℕ) : RenderOut :=
  ⟨(250, 250, 245), notes.map (geometricNoteCmd width height gc total mn rg), false⟩

/-- The style dispatch of `midi_to_artistic` (lines 124-133): anything
other than the four named alternatives falls through to classic. -/
def renderStyle (style : String) (rnd : ℕ → ℤ → ℤ → ℤ) (notes : List NoteInterval)
    (width height : ℕ) (gc : ℕ → ℕ → RGB) (total : ℚ) (mn rg : ℕ) : RenderOut :=
  if style = "watercolor" then create_watercolor_style rnd notes width height gc total mn rg
  else if style = "neon" then create_neon_style notes width height gc total mn rg
  else if style = "particles" then create_particle_style rnd notes width height gc total mn rg
  else if style = "geometric" then create_geometric_style notes width height gc total mn rg
  else create_classic_style notes width height gc total mn rg

/-- An RGB pixel buffer (`PIL.Image` in mode `'RGB'`). -/
structure Canvas where
  width : ℕ
  height : ℕ
  pix : ℕ → ℕ → RGB

/-- An RGBA pixel buffer (`PIL.Image` in mode `'RGBA'`). -/
structure CanvasA where
  width : ℕ
  height : ℕ
  pix : ℕ → ℕ → RGBA

/-- `Image.new('RGB', (width, height), color)`: every pixel holds the
fill color. -/
def imageNew (width height : ℕ) (color : RGB) : Canvas :=
  ⟨width, height, fun _ _ => color⟩

/-- Whether pixel `(x, y)` lies on the one-pixel outline of the
rectangle `[i, i, w - i, h - i]` drawn by the vignette loop. -/
def onOutline (w h i x y : ℕ) : Bool :=
  decide (i ≤ x ∧ x ≤ w - i ∧ i ≤ y ∧ y ≤ h - i ∧
    (x = i ∨ x = w - i ∨ y = i ∨ y = h - i))

/-- `draw.rectangle([i, i, width-i, height-i], outline=col)` on the
overlay: outline pixels take the color, the rest keep theirs. -/
def drawRectOutline (c : CanvasA) (i : ℕ) (col : RGBA) : CanvasA :=
  { c with pix := fun x y => if onOutline c.width c.height i x y then col else c.pix x y }

/-- `alpha = int(70 * (1 - i/max_border) * intensity)` in `apply_vignette`. -/
def vignetteAlpha (intensity : ℚ) (max_border i : ℕ) : ℤ :=
  pyInt (70 * (1 - (i : ℚ) / (max_border : ℚ)) * intensity)

/-- The transparent overlay built by the ring loop of `apply_vignette`
(lines 245-251). -/
def vignetteOverlay (w h : ℕ) (intensity : ℚ) : CanvasA :=
  let max_border := min w h / 3
  (List.range max_border).foldl
    (fun c i => drawRectOutline c i (0, 0, 0, vignetteAlpha intensity max_border i))
    ⟨w, h, fun _ _ => (0, 0, 0, 0)⟩

/-- Modelled from the spec: per-pixel alpha compositing (the external
`Image.alpha_composite` of the raster library), the standard source-over
operator on straight-alpha 8-bit pixels, components truncated back to
integers. -/
def overPix (dst src : RGBA) : RGBA :=
  let sa : ℚ := (src.2.2.2 : ℚ) / 255
  let da : ℚ := (dst.2.2.2 : ℚ) / 255
  let outA : ℚ := sa + da * (1 - sa)
  if outA = 0 then (0, 0, 0, 0)
  else
    (pyInt (((src.1 : ℚ) * sa + (dst.1 : ℚ) * da * (1 - sa)) / outA),
     pyInt (((src.2.1 : ℚ) * sa + (dst.2.1 : ℚ) * da * (1 - sa)) / outA),
     pyInt (((src.2.2.1 : ℚ) * sa + (dst.2.2.1 : ℚ) * da * (1 - sa)) / outA),
     pyInt (outA * 255))

/-- `apply_vignette` (lines 242-255): build the overlay, convert the
image to RGBA (alpha 255), composite, and flatten back to RGB. -/
def apply_vignette (img : Canvas) (intensity : ℚ) : Canvas :=
  let vignette := vignetteOverlay img.width img.height intensity
  let imgA : CanvasA := ⟨img.width, img.height, fun x y =>
    ((img.pix x y).1, (img.pix x y).2.1, (img.pix x y).2.2, 255)⟩
  let comp : CanvasA := ⟨imgA.width, imgA.height, fun x y =>
    overPix (imgA.pix x y) (vignette.pix x y)⟩
  ⟨comp.width, comp.height, fun x y =>
    ((comp.pix x y).1, (comp.pix x y).2.1, (comp.pix x y).2.2.1)⟩

/-- The image value flowing out of `midi_to_artistic`, keeping the
pipeline stages that produced it explicit: either the blank canvas of the
early return, or a styled rendering optionally wrapped by the blur and
vignette stages. -/
inductive OutImage where
  | plain : Canvas → OutImage
  | styled : RenderOut → OutImage
  | blurred : OutImage → ℚ → OutImage
  | vignetted : OutImage → ℚ → OutImage

/-- `midi_to_artistic` (lines 9-143) downstream of the external MIDI
decode: decode events, rebuild notes, early-return a blank canvas when
none survive, otherwise render under the dispatched style and apply the
post-processing stages.  `rnd` is the random source consumed by the
watercolor and particle styles. -/
def midi_to_artistic (rnd : ℕ → ℤ → ℤ → ℤ) (msgs : List Msg)
    (img_width img_height : ℕ) (bg_color : RGB) (style palette : String)
    (enable_vinhetas : Bool) (blur_radius effect_intensity : ℚ) : OutImage :=
  let events := decodeEvents msgs
  let music_notes := buildNotes events
  if music_notes = [] then OutImage.plain (imageNew img_width img_height bg_color)
  else
    let total := total_duration music_notes
    let mn := min_note music_notes
    let rg := note_range music_notes
    let img : OutImage := OutImage.styled
      (renderStyle style rnd music_notes img_width img_height (get_color palette) total mn rg)
    let img := if 0 < blur_radius then OutImage.blurred img blur_radius else img
    let img := if enable_vinhetas then OutImage.vignetted img effect_intensity else img
    img

/-- The alpha channels of the RGBA draw commands in a command list (used
to state facts about the neon glow). -/
def glowAlphas (cmds : List DrawCmd) : List ℤ :=
  cmds.filterMap fun c =>
    match c with
    | DrawCmd.line _ _ _ _ (Paint.rgba _ a) _ => some a
    | _ => none

/-- The stroke width of a line command (`0` for other commands). -/
def lineWidthOf : DrawCmd → ℕ
  | DrawCmd.line _ _ _ _ _ w => w
  | _ => 0

/-- Rewrite the velocity of every NoteEnd event by `f`, leaving
NoteStart events untouched (used to state that the builder never reads
an end velocity). -/
def endVelMap (f : Event → ℕ) (e : Event) : Event :=
  if e.kind = EKind.end_ then ⟨e.time, e.pitch, f e, e.kind⟩ else e

/-- Whether an event is a NoteStart for pitch `p`. -/
def isStartFor (p : ℕ) (e : Event) : Bool :=
  decide (e.pitch = p ∧ e.kind = EKind.start)

/-- The `(time, velocity)` of the most recent NoteStart for pitch `p` in
the event list, if any. -/
def lastStartFor (p : ℕ) (l : List Event) : Option (ℚ × ℕ) :=
  (l.reverse.find? (isStartFor p)).map fun e => (e.time, e.vel)

theorem pyInt_intCast (z : ℤ) : pyInt (z : ℚ) = z := by
  unfold pyInt
  split
  · rw [← Int.cast_neg, Int.floor_intCast]; ring
  · exact Int.floor_intCast z

/-- C1: one step of the interval builder — a NoteEnd that finds a pending
start pops it and emits an interval exactly when the elapsed time
`currentTime - pendingStart` is strictly positive; a NoteEnd with no
pending start for its pitch leaves the state untouched (a silent no-op);
a NoteStart overwrites whatever pending entry its pitch had and never
emits. -/
theorem interval_builder_step (st : BState) (e : Event) :
    (e.kind = EKind.end_ → ∀ t v, st.pending e.pitch = some (t, v) →
        (stepNote st e).pending e.pitch = none ∧
        (0 < e.time - t → (stepNote st e).out = st.out ++ [⟨e.pitch, t, e.time - t, v⟩]) ∧
        (¬ 0 < e.time - t → (stepNote st e).out = st.out)) ∧
    (e.kind = EKind.end_ → st.pending e.pitch = none → stepNote st e = st) ∧
    (e.kind = EKind.start →
        (stepNote st e).pending e.pitch = some (e.time, e.vel) ∧
        (stepNote st e).out = st.out) := by
  obtain ⟨time, pitch, vel, kind⟩ := e
  cases kind with
  | start =>
      dsimp only
      refine ⟨fun h => absurd h (by decide), fun h => absurd h (by decide), fun _ => ?_⟩
      exact ⟨by simp [stepNote], by simp [stepNote]⟩
  | end_ =>
      dsimp only
      refine ⟨fun _ t v hp => ?_, fun _ hp => ?_, fun h => absurd h (by decide)⟩
      · by_cases hd : 0 < time - t
        · refine ⟨?_, fun _ => ?_, fun hn => absurd hd hn⟩
          · simp [stepNote, hp, hd]
          · simp [stepNote, hp, hd]
        · refine ⟨?_, fun hy => absurd hy hd, fun _ => ?_⟩
          · simp [stepNote, hp, hd]
          · simp [stepNote, hp, hd]
      · simp [stepNote, hp]

theorem interval_builder_step_witness :
    (stepNote ⟨fun p => if p = 60 then some (0, 100) else none, []⟩
        ⟨1, 60, 0, EKind.end_⟩).out = [] ++ [⟨60, 0, (1 : ℚ) - 0, 100⟩] ∧
    (stepNote ⟨fun p => if p = 60 then some (0, 100) else none, []⟩
        ⟨1, 60, 0, EKind.end_⟩).pending 60 = none := by
  have h := (interval_builder_step
      ⟨fun p => if p = 60 then some (0, 100) else none, []⟩
      ⟨1, 60, 0, EKind.end_⟩).1 rfl 0 100 (by simp)
  exact ⟨h.2.1 (by norm_num), h.1⟩

/-- C2: when no note interval survives reconstruction, the pipeline
returns the freshly created background-colored canvas of the requested
dimensions and applies no style rendering, blur, or vignette stage. -/
theorem empty_notes_blank_canvas (rnd : ℕ → ℤ → ℤ → ℤ) (msgs : List Msg)
    (w h : ℕ) (bg : RGB) (style palette : String) (vin : Bool) (br ei : ℚ)
    (hempty : buildNotes (decodeEvents msgs) = []) :
    midi_to_artistic rnd msgs w h bg style palette vin br ei =
      OutImage.plain (imageNew w h bg) ∧
    (imageNew w h bg).width = w ∧ (imageNew w h bg).height = h ∧
    ∀ x y, (imageNew w h bg).pix x y = bg := by
  refine ⟨?_, rfl, rfl, fun _ _ => rfl⟩
  simp [midi_to_artistic, hempty]

theorem empty_notes_blank_canvas_witness :
    midi_to_artistic (fun _ _ _ => 0) [] 100 50 (15, 15, 25) "classic" "hsv"
        true (1/2) (7/10) = OutImage.plain (imageNew 100 50 (15, 15, 25)) :=
  (empty_notes_blank_canvas (fun _ _ _ => 0) [] 100 50 (15, 15, 25) "classic" "hsv"
    true (1/2) (7/10) rfl).1

theorem le_foldl_max (l : List ℚ) (a : ℚ) : a ≤ l.foldl max a := by
  induction l generalizing a with
  | nil => exact le_refl a
  | cons x xs ih => exact le_trans (le_max_left a x) (ih (max a x))

theorem mem_le_foldl_max (l : List ℚ) (a b : ℚ) (hb : b ∈ l) : b ≤ l.foldl max a := by
  revert hb
  induction l generalizing a with
  | nil => intro hb; cases hb
  | cons x xs ih =>
      intro hb
      rcases List.mem_cons.mp hb with h | h
      · subst h; exact le_trans (le_max_right a b) (le_foldl_max xs _)
      · exact ih (max a x) h

theorem foldl_max_eq_or_mem (l : List ℚ) (a : ℚ) : l.foldl max a = a ∨ l.foldl max a ∈ l := by
  induction l generalizing a with
  | nil => exact Or.inl rfl
  | cons x xs ih =>
      rcases ih (max a x) with h | h
      · rcases max_cases a x with ⟨h1, _⟩ | ⟨h1, _⟩
        · exact Or.inl (by rw [List.foldl_cons, h, h1])
        · refine Or.inr ?_
          rw [List.foldl_cons, h, h1]
          exact List.mem_cons_self x xs
      · exact Or.inr (List.mem_cons_of_mem x h)

/-- C3: for a non-empty interval collection the derived extents satisfy:
`total_duration` bounds every `start + duration` from above, equals the
attained maximum when that maximum is nonzero and is floored at `1` in
the degenerate zero case, and `note_range` is at least `1` even when all
notes share one pitch. -/
theorem scene_extents (notes : List NoteInterval) (hne : notes ≠ []) :
    (∀ n ∈ notes, n.start + n.duration ≤ total_duration notes) ∧
    (∃ n ∈ notes, rawTotal notes = n.start + n.duration) ∧
    (rawTotal notes = 0 → total_duration notes = 1) ∧
    (rawTotal notes ≠ 0 → total_duration notes = rawTotal notes) ∧
    1 ≤ note_range notes := by
  match notes, hne with
  | n :: rest, _ =>
    have hmax : ∀ m ∈ n :: rest, m.start + m.duration ≤ rawTotal (n :: rest) := by
      intro m hm
      rcases List.mem_cons.mp hm with h | h
      · subst h; exact le_foldl_max _ _
      · exact mem_le_foldl_max _ _ _ (List.mem_map_of_mem _ h)
    refine ⟨?_, ?_, ?_, ?_, le_max_right _ 1⟩
    · intro m hm
      by_cases h0 : rawTotal (n :: rest) = 0
      · have := hmax m hm
        rw [h0] at this
        simpa [total_duration, h0] using le_trans this (by norm_num)
      · simpa [total_duration, h0] using hmax m hm
    · rcases foldl_max_eq_or_mem (rest.map (fun m => m.start + m.duration))
          (n.start + n.duration) with h | h
      · exact ⟨n, List.mem_cons_self n rest, h⟩
      · rcases List.mem_map.mp h with ⟨m, hm, hfm⟩
        exact ⟨m, List.mem_cons_of_mem n hm, hfm.symm⟩
    · intro h0; simp [total_duration, h0]
    · intro h0; simp [total_duration, h0]

theorem scene_extents_witness :
    total_duration [⟨60, 0, 1, 100⟩] = rawTotal [⟨60, 0, 1, 100⟩] ∧
    1 ≤ note_range [⟨60, 0, 1, 100⟩] := by
  have h := scene_extents [⟨60, 0, 1, 100⟩] (by simp)
  exact ⟨h.2.2.2.1 (by norm_num [rawTotal]), h.2.2.2.2⟩

/-- C4 counterexample: the watercolor vertical mapping matches the spec
formula for no vertical margin between 50 and 100 — at `p = minPitch`
the spec formula yields `height` for every margin, while watercolor
yields `height - 50` (here `450` against `500`). -/
theorem watercolor_y_counterexample :
    ¬ ∃ margin : ℚ, 50 ≤ margin ∧ margin ≤ 100 ∧
      watercolorY 500 60 1 60 = pitchToY_spec 500 margin 60 1 60 := by
  rintro ⟨m, _, _, hm⟩
  norm_num [watercolorY, pitchToY_spec] at hm

/-- C4 (amended): the classic, neon, particles, and geometric renderers
compute the vertical coordinate by the spec formula with
`verticalMargin = 50`; the watercolor renderer instead subtracts a fixed
50-pixel offset and uses a 100-pixel scaling margin,
`height - 50 - ((p - minPitch) / pitchRange) * (height - 100)`. -/
theorem pitch_to_y_margins (height : ℚ) (mn rg note : ℕ) :
    classicY height mn rg note = pitchToY_spec height 50 mn rg note ∧
    neonY height mn rg note = pitchToY_spec height 50 mn rg note ∧
    particleY height mn rg note = pitchToY_spec height 50 mn rg note ∧
    geometricY height mn rg note = pitchToY_spec height 50 mn rg note ∧
    watercolorY height mn rg note =
      height - 50 - ((note : ℚ) - (mn : ℚ)) / (rg : ℚ) * (height - 100) :=
  ⟨rfl, rfl, rfl, rfl, rfl⟩

/-- C5 counterexample: for a concrete note the classic renderer draws
the rectangle from `pitchToY - 20` up to `pitchToY`, whose vertical
center (`290`) is not `pitchToY` (`300`). -/
theorem classic_rect_center_counterexample :
    (create_classic_style [⟨60, 0, 1, 100⟩] 1000 300 (fun _ _ => (0, 0, 0)) 1 60 1).cmds =
      [DrawCmd.rect 0 300 1000 280 (Paint.rgb (0, 0, 0))] ∧
    ((300 : ℚ) + 280) / 2 ≠ classicY 300 60 1 60 := by
  constructor
  · norm_num [create_classic_style, classicNoteCmd, classicY, timeToX, pyInt]
  · norm_num [classicY]

/-- C5 (amended): the classic renderer draws exactly one filled
rectangle per note, spanning `timeToX(start)` to
`timeToX(start + duration)` horizontally, with a fixed 20-pixel vertical
thickness extending from `pitchToY(pitch) - 20` to `pitchToY(pitch)`,
i.e. centered at `pitchToY(pitch) - 10`. -/
theorem classic_rect_amended (notes : List NoteInterval) (width height : ℕ)
    (gc : ℕ → ℕ → RGB) (total : ℚ) (mn rg : ℕ) :
    (create_classic_style notes width height gc total mn rg).cmds =
      notes.map (classicNoteCmd width height gc total mn rg) ∧
    ∀ n : NoteInterval,
      classicNoteCmd width height gc total mn rg n =
        DrawCmd.rect (timeToX total width n.start : ℚ)
          (classicY (height : ℚ) mn rg n.pitch)
          (timeToX total width (n.start + n.duration) : ℚ)
          (classicY (height : ℚ) mn rg n.pitch - 20)
          (Paint.rgb (gc n.pitch n.vel)) ∧
      classicY (height : ℚ) mn rg n.pitch -
          (classicY (height : ℚ) mn rg n.pitch - 20) = 20 ∧
      (classicY (height : ℚ) mn rg n.pitch +
          (classicY (height : ℚ) mn rg n.pitch - 20)) / 2 =
        classicY (height : ℚ) mn rg n.pitch - 10 :=
  ⟨rfl, fun _ => ⟨rfl, by ring, by ring⟩⟩

/-- C6 counterexample: the ten glow lines of a concrete note carry the
alpha sequence `0, 255, ..., 255` — the alphas do not decrease across
the successive lines (they jump from 0 to the clamped maximum). -/
theorem neon_alpha_counterexample :
    glowAlphas (neonNoteCmds 1000 300 (fun _ _ => (0, 0, 0)) 1 60 1 ⟨60, 0, 1, 100⟩) =
      [0, 255, 255, 255, 255, 255, 255, 255, 255, 255] ∧
    ¬ List.Chain' (fun a b => b < a)
        (glowAlphas (neonNoteCmds 1000 300 (fun _ _ => (0, 0, 0)) 1 60 1 ⟨60, 0, 1, 100⟩)) := by
  have h : glowAlphas (neonNoteCmds 1000 300 (fun _ _ => (0, 0, 0)) 1 60 1 ⟨60, 0, 1, 100⟩) =
      [0, 255, 255, 255, 255, 255, 255, 255, 255, 255] := by
    norm_num [glowAlphas, neonNoteCmds, rangeTenDown, neonAlpha, pyInt,
      List.filterMap_cons]
  refine ⟨h, ?_⟩
  rw [h]
  norm_num [List.chain'_cons]

/-- C6 (amended): per note the neon renderer draws ten concentric glow
lines of strictly decreasing width (20 down to 2 pixels) whose alpha
increases — 0 on the first, widest line and the clamped maximum 255 on
all nine following lines — followed by one solid 3-pixel core line in
the plain note color. -/
theorem neon_glow_amended (notes : List NoteInterval) (width height : ℕ)
    (gc : ℕ → ℕ → RGB) (total : ℚ) (mn rg : ℕ) (n : NoteInterval) :
    (create_neon_style notes width height gc total mn rg).cmds =
      notes.flatMap (neonNoteCmds width height gc total mn rg) ∧
    (neonNoteCmds width height gc total mn rg n).take 10 =
      rangeTenDown.map (fun r =>
        DrawCmd.line (timeToX total width n.start : ℚ) (neonY (height : ℚ) mn rg n.pitch)
          (timeToX total width (n.start + n.duration) : ℚ) (neonY (height : ℚ) mn rg n.pitch)
          (Paint.rgba (gc n.pitch n.vel) (neonAlpha r)) (r * 2)) ∧
    (neonNoteCmds width height gc total mn rg n).map lineWidthOf =
      [20, 18, 16, 14, 12, 10, 8, 6, 4, 2, 3] ∧
    glowAlphas (neonNoteCmds width height gc total mn rg n) =
      [0, 255, 255, 255, 255, 255, 255, 255, 255, 255] ∧
    (neonNoteCmds width height gc total mn rg n).getLast? =
      some (DrawCmd.line (timeToX total width n.start : ℚ) (neonY (height : ℚ) mn rg n.pitch)
        (timeToX total width (n.start + n.duration) : ℚ) (neonY (height : ℚ) mn rg n.pitch)
        (Paint.rgb (gc n.pitch n.vel)) 3) := by
  refine ⟨rfl, ?_, ?_, ?_, ?_⟩
  · simp [neonNoteCmds, rangeTenDown]
  · simp [neonNoteCmds, rangeTenDown, lineWidthOf]
  · norm_num [glowAlphas, neonNoteCmds, rangeTenDown, neonAlpha, pyInt,
      List.filterMap_cons]
  · simp [neonNoteCmds, rangeTenDown]

/-- C7: the color mapper is a pure function of its arguments — two
calls with identical pitch, velocity, and palette return identical RGB
triples. -/
theorem get_color_deterministic (pal1 pal2 : String) (n1 n2 v1 v2 : ℕ)
    (hp : pal1 = pal2) (hn : n1 = n2) (hv : v1 = v2) :
    get_color pal1 n1 v1 = get_color pal2 n2 v2 := by
  subst hp; subst hn; subst hv; rfl

theorem get_color_deterministic_witness :
    get_color "hsv" 60 100 = get_color "hsv" 60 100 :=
  get_color_deterministic "hsv" "hsv" 60 60 100 100 rfl rfl rfl

/-- C8: an unrecognized palette name falls back to the fixed neutral
gray `(200, 200, 200)` and an unrecognized style name falls through to
the classic rendering; neither is an error. -/
theorem unrecognized_fallbacks (note vel : ℕ) (palette style : String)
    (rnd : ℕ → ℤ → ℤ → ℤ) (notes : List NoteInterval) (width height : ℕ)
    (gc : ℕ → ℕ → RGB) (total : ℚ) (mn rg : ℕ)
    (hp : palette ∉ ["hsv", "ocean", "forest", "sunset", "pastel", "grayscale", "fire", "ice"])
    (hs : style ∉ ["classic", "watercolor", "neon", "particles", "geometric"]) :
    get_color palette note vel = (200, 200, 200) ∧
    renderStyle style rnd notes width height gc total mn rg =
      create_classic_style notes width height gc total mn rg := by
  simp only [List.mem_cons, List.not_mem_nil, or_false, not_or] at hp hs
  obtain ⟨h1, h2, h3, h4, h5, h6, h7, h8⟩ := hp
  obtain ⟨g1, g2, g3, g4, g5⟩ := hs
  exact ⟨by simp [get_color, h1, h2, h3, h4, h5, h6, h7, h8],
         by simp [renderStyle, g2, g3, g4, g5]⟩

theorem unrecognized_fallbacks_witness :
    get_color "plasma" 60 100 = (200, 200, 200) ∧
    renderStyle "sketch" (fun _ _ _ => 0) [] 10 10 (fun _ _ => (0, 0, 0)) 1 0 1 =
      create_classic_style [] 10 10 (fun _ _ => (0, 0, 0)) 1 0 1 :=
  unrecognized_fallbacks 60 100 "plasma" "sketch" (fun _ _ _ => 0) [] 10 10
    (fun _ _ => (0, 0, 0)) 1 0 1 (by simp) (by simp)

theorem vignetteAlpha_zero (mb i : ℕ) : vignetteAlpha 0 mb i = 0 := by
  simp [vignetteAlpha, pyInt]

theorem foldl_outline_zero (mb : ℕ) (l : List ℕ) (c : CanvasA)
    (hc : ∀ x y, c.pix x y = (0, 0, 0, 0)) : ∀ x y,
    (l.foldl (fun c i => drawRectOutline c i (0, 0, 0, vignetteAlpha 0 mb i)) c).pix x y =
      (0, 0, 0, 0) := by
  induction l generalizing c with
  | nil => exact hc
  | cons j js ih =>
      intro x y
      refine ih _ (fun x2 y2 => ?_) x y
      simp [drawRectOutline, vignetteAlpha_zero, hc]

theorem vignetteOverlay_zero_pix (w h x y : ℕ) :
    (vignetteOverlay w h 0).pix x y = (0, 0, 0, 0) := by
  unfold vignetteOverlay
  exact foldl_outline_zero _ _ _ (fun _ _ => rfl) x y

theorem overPix_transparent (r g b : ℤ) :
    overPix (r, g, b, 255) (0, 0, 0, 0) = (r, g, b, 255) := by
  unfold overPix
  norm_num [pyInt_intCast]
  norm_num [pyInt]

/-- C9: applying the vignette step with intensity `0` is an identity —
every ring gets alpha `0`, the transparent overlay composites to the
original pixels, and the RGB to RGBA to RGB round-trip returns the
original canvas pixel for pixel. -/
theorem vignette_zero_noop (img : Canvas) :
    (apply_vignette img 0).width = img.width ∧
    (apply_vignette img 0).height = img.height ∧
    ∀ x y, (apply_vignette img 0).pix x y = img.pix x y := by
  refine ⟨rfl, rfl, fun x y => ?_⟩
  simp only [apply_vignette]
  rw [vignetteOverlay_zero_pix, overPix_transparent]

theorem decode_end_vel_aux (msgs : List Msg) (acc : ℚ × List Event)
    (hacc : ∀ e ∈ acc.2, e.kind = EKind.end_ → e.vel = 0) :
    ∀ e ∈ (msgs.foldl decodeStep acc).2, e.kind = EKind.end_ → e.vel = 0 := by
  induction msgs generalizing acc with
  | nil => exact hacc
  | cons m ms ih =>
      refine ih (decodeStep acc m) ?_
      intro e he hk
      unfold decodeStep at he
      split at he
      · exact hacc e he hk
      · split at he
        · rcases List.mem_append.mp he with h | h
          · exact hacc e h hk
          · obtain rfl := List.mem_singleton.mp h
            simp at hk
        · split at he
          · rcases List.mem_append.mp he with h | h
            · exact hacc e h hk
            · rw [List.mem_singleton.mp h]
          · exact hacc e he hk

theorem stepNote_endVelMap (st : BState) (f : Event → ℕ) (e : Event) :
    stepNote st (endVelMap f e) = stepNote st e := by
  obtain ⟨time, pitch, vel, kind⟩ := e
  cases kind with
  | start => simp [endVelMap]
  | end_ =>
      simp only [endVelMap, if_pos rfl]
      cases hp : st.pending pitch with
      | none => simp [stepNote, hp]
      | some tv => obtain ⟨t0, v0⟩ := tv; simp [stepNote, hp]

theorem buildState_endVelMap (l : List Event) (f : Event → ℕ) :
    buildState (l.map (endVelMap f)) = buildState l := by
  suffices h : ∀ st : BState,
      List.foldl stepNote st (l.map (endVelMap f)) = List.foldl stepNote st l from
    h initState
  induction l with
  | nil => intro st; rfl
  | cons e es ih =>
      intro st
      rw [List.map_cons, List.foldl_cons, List.foldl_cons, stepNote_endVelMap]
      exact ih _

theorem pending_eq_lastStart (l : List Event) (p : ℕ) (t : ℚ) (v : ℕ)
    (hp : (buildState l).pending p = some (t, v)) : lastStartFor p l = some (t, v) := by
  induction l using List.reverseRecOn generalizing t v with
  | nil => simp [buildState, initState, List.foldl_nil] at hp
  | append_singleton l e ih =>
      have hb : buildState (l ++ [e]) = stepNote (buildState l) e := by
        simp [buildState, List.foldl_append]
      rw [hb] at hp
      obtain ⟨time, pitch, vel, kind⟩ := e
      cases kind with
      | start =>
          by_cases hpe : p = pitch
          · subst hpe
            simp only [stepNote] at hp
            simp at hp
            simp [lastStartFor, List.reverse_append, List.find?, isStartFor,
              hp.1, hp.2]
          · simp only [stepNote, if_neg hpe] at hp
            have hskip : isStartFor p ⟨time, pitch, vel, EKind.start⟩ = false := by
              simp [isStartFor]
              intro h
              exact absurd h.symm hpe
            simp [lastStartFor, List.reverse_append, List.find?, hskip]
            simpa [lastStartFor] using ih t v hp
      | end_ =>
          have hskip : isStartFor p ⟨time, pitch, vel, EKind.end_⟩ = false := by
            simp [isStartFor]
          have hpend : (stepNote (buildState l) ⟨time, pitch, vel, EKind.end_⟩).pending p =
              (if p = pitch then none else (buildState l).pending p) := by
            cases hq : (buildState l).pending pitch with
            | none =>
                simp only [stepNote, hq]
                by_cases hpe : p = pitch
                · subst hpe; simp [hq]
                · simp [hpe]
            | some tv =>
                obtain ⟨t0, v0⟩ := tv
                simp only [stepNote, hq]
                split <;> rfl
          rw [hpend] at hp
          by_cases hpe : p = pitch
          · rw [if_pos hpe] at hp; cases hp
          · rw [if_neg hpe] at hp
            simp [lastStartFor, List.reverse_append, List.find?, hskip]
            simpa [lastStartFor] using ih t v hp

theorem buildNotes_append_end (l : List Event) (e : Event) (he : e.kind = EKind.end_)
    (t : ℚ) (v : ℕ) (hp : (buildState l).pending e.pitch = some (t, v))
    (hd : 0 < e.time - t) :
    buildNotes (l ++ [e]) = buildNotes l ++ [⟨e.pitch, t, e.time - t, v⟩] := by
  have hb : buildState (l ++ [e]) = stepNote (buildState l) e := by
    simp [buildState, List.foldl_append]
  unfold buildNotes
  rw [hb]
  obtain ⟨time, pitch, vel, kind⟩ := e
  cases kind with
  | start => simp at he
  | end_ => simp only [stepNote] at *; simp [hp, hd]

/-- C10: an emitted interval always carries the velocity of its matching
NoteStart — the most recent start for that pitch: every decoded NoteEnd
event is recorded with velocity 0, the reconstruction is unchanged under
any rewriting of end-event velocities, and the interval emitted by an
end event takes both its start time and its velocity from the pending
entry, which equals the most recent NoteStart for the pitch. -/
theorem note_velocity_from_start :
    (∀ msgs : List Msg, ∀ e ∈ decodeEvents msgs, e.kind = EKind.end_ → e.vel = 0) ∧
    (∀ (l : List Event) (f : Event → ℕ),
      buildNotes (l.map (endVelMap f)) = buildNotes l) ∧
    (∀ (l : List Event) (e : Event), e.kind = EKind.end_ →
      ∀ t v, (buildState l).pending e.pitch = some (t, v) →
        lastStartFor e.pitch l = some (t, v) ∧
        (0 < e.time - t →
          buildNotes (l ++ [e]) = buildNotes l ++ [⟨e.pitch, t, e.time - t, v⟩])) := by
  refine ⟨?_, ?_, ?_⟩
  · intro msgs
    exact decode_end_vel_aux msgs (0, []) (by intro e he; cases he)
  · intro l f
    unfold buildNotes
    rw [buildState_endVelMap]
  · intro l e he t v hp
    exact ⟨pending_eq_lastStart l e.pitch t v hp,
      fun hd => buildNotes_append_end l e he t v hp hd⟩

theorem note_velocity_from_start_witness :
    lastStartFor 60 [⟨0, 60, 100, EKind.start⟩] = some (0, 100) ∧
    buildNotes ([⟨0, 60, 100, EKind.start⟩] ++ [⟨1, 60, 0, EKind.end_⟩]) =
      buildNotes [⟨0, 60, 100, EKind.start⟩] ++ [⟨60, 0, (1 : ℚ) - 0, 100⟩] := by
  have h := note_velocity_from_start.2.2 [⟨0, 60, 100, EKind.start⟩]
    ⟨1, 60, 0, EKind.end_⟩ rfl 0 100 (by simp [buildState, initState, stepNote])
  exact ⟨h.1, h.2 (by norm_num)⟩
